import Mathlib

/-
Verification of the patreon-posts repository core against its design
specification.  The Go source is shallowly embedded: each regex pass, cache
operation and loop is translated into an executable Lean definition, and the
specified properties are proved as theorems about those definitions.
-/

namespace PatreonPosts

/-! ## Remote Source Client: YouTube link extraction
    (src/internal/api/client.go, `youtubePatterns` lines 16-22 and
    `ExtractYouTubeLinks` lines 194-213) -/

/-- Characters of the regex class `[a-zA-Z0-9_-]` used for video ids. -/
def isIdChar (c : Char) : Bool :=
  c.isAlpha || c.isDigit || c == '_' || c == '-'

/-- Strip an exact literal from the front of the input, returning the
remainder, or `none` when the literal is not there. -/
def stripPre : List Char → List Char → Option (List Char)
  | [], s => some s
  | _ :: _, [] => none
  | p :: ps, c :: cs => if c = p then stripPre ps cs else none

/-- Consume exactly `n` characters of the id class `[a-zA-Z0-9_-]`, returning
the consumed id and the remainder (the `([a-zA-Z0-9_-]\x7b11\x7d)` capture). -/
def takeClass : Nat → List Char → Option (List Char × List Char)
  | 0, s => some ([], s)
  | _ + 1, [] => none
  | n + 1, c :: cs =>
    if isIdChar c then
      match takeClass n cs with
      | some (vid, rest) => some (c :: vid, rest)
      | none => none
    else none

/-- Greedy optional literal with backtracking: matches the regex `(lit)?`
followed by the continuation `k`, preferring to consume the literal first
(Go regexp's leftmost-first semantics). -/
def tryOptThen (opt : List Char) (s : List Char)
    (k : List Char → Option (List Char × List Char)) :
    Option (List Char × List Char) :=
  match stripPre opt s with
  | some s2 =>
    match k s2 with
    | some r => some r
    | none => k s
  | none => k s

/-- Match the site-specific tail of a YouTube pattern: the fixed literal
(e.g. `youtube.com/watch?v=`) followed by an 11-character id capture. -/
def matchSite (site : List Char) (s : List Char) : Option (List Char × List Char) :=
  match stripPre site s with
  | some s5 => takeClass 11 s5
  | none => none

/-- Match one compiled YouTube pattern at the start of `s`:
`https?://(?:www\.)?<site><id>` (the `www.` option is disabled for the
`youtu.be` short form, which has no `(?:www\.)?` group).  Returns the captured
id and the remainder after the whole match. -/
def matchShape (www : Bool) (site : List Char) (s : List Char) :
    Option (List Char × List Char) :=
  match stripPre ['h', 't', 't', 'p'] s with
  | none => none
  | some s1 =>
    tryOptThen ['s'] s1 (fun s2 =>
      match stripPre [':', '/', '/'] s2 with
      | none => none
      | some s3 =>
        if www then tryOptThen ['w', 'w', 'w', '.'] s3 (matchSite site)
        else matchSite site s3)

/-- All captured ids for one pattern, scanning left to right with
non-overlapping matches (Go `FindAllStringSubmatch(content, -1)`); the fuel is
instantiated with the input length, which bounds the number of scan steps. -/
def findIdsF (www : Bool) (site : List Char) : Nat → List Char → List (List Char)
  | 0, _ => []
  | _ + 1, [] => []
  | fuel + 1, c :: cs =>
    match matchShape www site (c :: cs) with
    | some (vid, after) => vid :: findIdsF www site fuel after
    | none => findIdsF www site fuel cs

/-- The five compiled patterns of `youtubePatterns`, in source order:
watch?v=, /embed/, youtu.be short form, /v/, /shorts/. -/
def youtubePatterns : List (Bool × List Char) :=
  [ (true, "youtube.com/watch?v=".data),
    (true, "youtube.com/embed/".data),
    (false, "youtu.be/".data),
    (true, "youtube.com/v/".data),
    (true, "youtube.com/shorts/".data) ]

/-- All ids found in the content, per pattern in pattern priority order and
left to right within each pattern, duplicates included. -/
def rawIds (content : List Char) : List (List Char) :=
  (youtubePatterns.map (fun pw => findIdsF pw.1 pw.2 content.length content)).flatten

/-- Canonical watch URL built for every match
(`"https://www.youtube.com/watch?v=" + videoID`). -/
def canonicalURL (vid : List Char) : String :=
  "https://www.youtube.com/watch?v=" ++ String.mk vid

/-- The accumulation loop of `ExtractYouTubeLinks`: a `seen` set keyed by
video id, appending the canonical URL of each first-seen id. -/
def extractLoop : List (List Char) → List (List Char) → List String → List String
  | [], _, links => links
  | vid :: t, seen, links =>
    if vid ∈ seen then extractLoop t seen links
    else extractLoop t (vid :: seen) (links ++ [canonicalURL vid])

/-- `ExtractYouTubeLinks` (client.go lines 194-213): scan the five patterns in
order, canonicalize each match and dedupe by id keeping first-seen order. -/
def ExtractYouTubeLinks (content : String) : List String :=
  extractLoop (rawIds content.data) [] []

/-- First-seen deduplication relative to an already-seen set: the reference
description of the extraction loop's output order. -/
def dedupFrom (seen : List (List Char)) : List (List Char) → List (List Char)
  | [] => []
  | x :: xs => if x ∈ seen then dedupFrom seen xs else x :: dedupFrom (x :: seen) xs

/-! ## Remote Source Client: HTML stripping
    (src/internal/api/client.go, regexes lines 216-221 and `stripHTML`
    lines 224-247) -/

/-- The Go regex class `\s`: `[\t\n\x0c\r ]` (ASCII). -/
def isGoSpace (c : Char) : Bool :=
  c == ' ' || c == '\t' || c == '\n' || c == '\x0c' || c == '\r'

/-- The ASCII part of Go `unicode.IsSpace`, used by `strings.TrimSpace`:
the `\s` class plus vertical tab, NEL and no-break space. -/
def isUniSpace (c : Char) : Bool :=
  isGoSpace c || c == '\x0b' || c == '\u0085' || c == ' '

/-- Strip a case-insensitive literal (given lowercase) from the front of the
input, for the `(?i)` script/style regexes. -/
def stripPreCI : List Char → List Char → Option (List Char)
  | [], s => some s
  | _ :: _, [] => none
  | p :: ps, c :: cs => if c.toLower = p then stripPreCI ps cs else none

/-- Match `[^>]*>`: consume characters other than `>` until a `>` and return
what follows it; `none` when no `>` remains. -/
def skipToGt : List Char → Option (List Char)
  | [] => none
  | c :: cs => if c = '>' then some cs else skipToGt cs

/-- Match the lazy `[\s\S]*?` followed by a case-insensitive closing literal:
returns the remainder after the first occurrence of the literal. -/
def findCloseCI (lit : List Char) : List Char → Option (List Char)
  | [] => none
  | c :: cs =>
    match stripPreCI lit (c :: cs) with
    | some rest => some rest
    | none => findCloseCI lit cs

/-- Match one whole block regex `(?i)<tag[^>]*>[\s\S]*?</tag>` at the start of
the input, returning the remainder after the block. -/
def matchBlockAt (openLit closeLit : List Char) (s : List Char) : Option (List Char) :=
  match stripPreCI openLit s with
  | none => none
  | some s1 =>
    match skipToGt s1 with
    | none => none
    | some s2 => findCloseCI closeLit s2

/-- Replace every non-overlapping block match by nothing, scanning left to
right (Go `ReplaceAllString(html, "")`); fuel is the input length. -/
def removeBlocksF (openLit closeLit : List Char) : Nat → List Char → List Char
  | 0, s => s
  | _ + 1, [] => []
  | fuel + 1, c :: cs =>
    match matchBlockAt openLit closeLit (c :: cs) with
    | some rest => removeBlocksF openLit closeLit fuel rest
    | none => c :: removeBlocksF openLit closeLit fuel cs

/-- After an opening `<`, match `[^>]+>`: at least one non-`>` character, then
everything up to and including the next `>`. -/
def tagEnd : List Char → Option (List Char)
  | [] => none
  | c :: cs => if c = '>' then none else skipToGt cs

/-- Remove every `<[^>]+>` tag match, scanning left to right
(Go `htmlTagRe.ReplaceAllString(html, "")`). -/
def removeTagsF : Nat → List Char → List Char
  | 0, s => s
  | _ + 1, [] => []
  | fuel + 1, c :: cs =>
    if c = '<' then
      match tagEnd cs with
      | some rest => removeTagsF fuel rest
      | none => c :: removeTagsF fuel cs
    else c :: removeTagsF fuel cs

/-- Go `strings.ReplaceAll`: replace every non-overlapping occurrence of a
non-empty literal, scanning left to right. -/
def replaceAllF (pat rep : List Char) : Nat → List Char → List Char
  | 0, s => s
  | _ + 1, [] => []
  | fuel + 1, c :: cs =>
    match stripPre pat (c :: cs) with
    | some rest => rep ++ replaceAllF pat rep fuel rest
    | none => c :: replaceAllF pat rep fuel cs

/-- Collapse every `\s+` run into a single space
(Go `whitespaceRe.ReplaceAllString(text, " ")`). -/
def collapseWsF : Nat → List Char → List Char
  | 0, s => s
  | _ + 1, [] => []
  | fuel + 1, c :: cs =>
    if isGoSpace c then ' ' :: collapseWsF fuel (cs.dropWhile isGoSpace)
    else c :: collapseWsF fuel cs

def removeScriptBlocks (s : List Char) : List Char :=
  removeBlocksF "<script".data "</script>".data s.length s

def removeStyleBlocks (s : List Char) : List Char :=
  removeBlocksF "<style".data "</style>".data s.length s

def removeTags (s : List Char) : List Char := removeTagsF s.length s

def replaceAllStr (pat rep s : List Char) : List Char :=
  replaceAllF pat rep s.length s

/-- The six entity rewrites of `stripHTML`, in source order:
nbsp, amp, lt, gt, quot, apostrophe. -/
def decodeEntities (s : List Char) : List Char :=
  replaceAllStr "&#39;".data "'".data
    (replaceAllStr "&quot;".data "\"".data
      (replaceAllStr "&gt;".data ">".data
        (replaceAllStr "&lt;".data "<".data
          (replaceAllStr "&amp;".data "&".data
            (replaceAllStr "&nbsp;".data " ".data s)))))

def collapseWs (s : List Char) : List Char := collapseWsF s.length s

/-- Go `strings.TrimSpace`: drop whitespace from both ends. -/
def trimEnds (s : List Char) : List Char :=
  ((s.dropWhile isUniSpace).reverse.dropWhile isUniSpace).reverse

/-- The character-level pipeline of `stripHTML`: drop script blocks, drop
style blocks, drop remaining tags, decode the six entities, collapse
whitespace runs, trim both ends — in that order. -/
def stripHTMLChars (html : List Char) : List Char :=
  trimEnds (collapseWs (decodeEntities
    (removeTags (removeStyleBlocks (removeScriptBlocks html)))))

/-- `stripHTML` (client.go lines 224-247). -/
def stripHTML (html : String) : String :=
  String.mk (stripHTMLChars html.data)

/-- No two adjacent characters are both `\s` whitespace. -/
def noRun : List Char → Bool
  | [] => true
  | [_] => true
  | a :: b :: t => (!(isGoSpace a && isGoSpace b)) && noRun (b :: t)

/-! ## Link-list serialization
    Models the external `encoding/json` marshalling of `[]string` used by the
    repository when storing `youtube_links` (client callers marshal with
    `json.Marshal(details.YouTubeLinks)` and decode with `json.Unmarshal`). -/

/-- JSON string escaping for the characters the encoder must escape here:
quote and backslash. -/
def escChars : List Char → List Char
  | [] => []
  | c :: cs =>
    if c = '"' || c = '\\' then '\\' :: c :: escChars cs
    else c :: escChars cs

def encodeStrChars (s : List Char) : List Char :=
  '"' :: escChars s ++ ['"']

def encodeItems : List (List Char) → List Char
  | [] => []
  | [s] => encodeStrChars s
  | s :: rest => encodeStrChars s ++ ',' :: encodeItems rest

/-- Serialize a list of links as a JSON array of strings. -/
def encodeLinks (links : List String) : String :=
  String.mk ('[' :: encodeItems (links.map String.data) ++ [']'])

/-- Parse a JSON string body after the opening quote: unescape `\"` and
`\\`, stop at the closing quote, returning content and remainder. -/
def parseStrBody : List Char → Option (List Char × List Char)
  | [] => none
  | c :: cs =>
    if c = '"' then some ([], cs)
    else if c = '\\' then
      match cs with
      | [] => none
      | d :: cs2 => (parseStrBody cs2).map (fun pr => (d :: pr.1, pr.2))
    else (parseStrBody cs).map (fun pr => (c :: pr.1, pr.2))

/-- Parse the items of a JSON string array after the opening bracket; fuel
bounds the number of items. -/
def parseItemsF : Nat → List Char → Option (List (List Char) × List Char)
  | 0, _ => none
  | _ + 1, [] => none
  | fuel + 1, c :: rest =>
    if c = ']' then some ([], rest)
    else if c = '"' then
      match parseStrBody rest with
      | none => none
      | some pr =>
        match pr.2 with
        | [] => none
        | d :: r1 =>
          if d = ']' then some ([pr.1], r1)
          else if d = ',' then
            match r1 with
            | [] => none
            | e :: r2 =>
              if e = '"' then
                (parseItemsF fuel (e :: r2)).map (fun q => (pr.1 :: q.1, q.2))
              else none
          else none
    else none

/-- Accept the parsed items only when the whole input was consumed. -/
def afterItems : Option (List (List Char) × List Char) → Option (List String)
  | some (items, []) => some (items.map String.mk)
  | _ => none

/-- Deserialize a JSON array of strings from a character list. -/
def decodeLinksChars : List Char → Option (List String)
  | [] => none
  | c :: rest =>
    if c = '[' then afterItems (parseItemsF (rest.length + 1) rest)
    else none

/-- Deserialize a JSON array of strings; `none` on malformed input
(`json.Unmarshal` leaves the target empty and the caller skips the entry). -/
def decodeLinks (s : String) : Option (List String) :=
  decodeLinksChars s.data

/-! ## Remote Source Client: pagination cursor extraction
    (src/internal/api/client.go, `FetchPosts` result assembly lines 104-113
    and `extractCursorFromURL` lines 119-132).  The `net/url` parsing the code
    delegates to is modelled: a URL fails to parse exactly when it contains an
    ASCII control character; the query is the part after the first `?` and
    before any `#`, split on `&` into percent-decoded `key=value` pairs, and
    `Query().Get` returns the first value for the key or the empty string. -/

def hexVal (c : Char) : Option Nat :=
  if '0' ≤ c ∧ c ≤ '9' then some (c.toNat - '0'.toNat)
  else if 'a' ≤ c ∧ c ≤ 'f' then some (c.toNat - 'a'.toNat + 10)
  else if 'A' ≤ c ∧ c ≤ 'F' then some (c.toNat - 'A'.toNat + 10)
  else none

/-- Percent-decode a query component (`QueryUnescape`): `%HH` becomes the
decoded byte, `+` becomes a space; invalid escapes fail. -/
def pctDecode : List Char → Option (List Char)
  | [] => some []
  | '%' :: h1 :: h2 :: rest =>
    match hexVal h1, hexVal h2 with
    | some a, some b =>
      match pctDecode rest with
      | some r => some (Char.ofNat (16 * a + b) :: r)
      | none => none
    | _, _ => none
  | '%' :: _ => none
  | '+' :: rest =>
    match pctDecode rest with
    | some r => some (' ' :: r)
    | none => none
  | c :: rest =>
    match pctDecode rest with
    | some r => some (c :: r)
    | none => none

/-- Split a list on a separator character. -/
def splitOnChar (sep : Char) : List Char → List (List Char)
  | [] => [[]]
  | c :: cs =>
    let r := splitOnChar sep cs
    if c = sep then [] :: r
    else
      match r with
      | h :: t => (c :: h) :: t
      | [] => [[c]]

/-- One `key=value` query pair, percent-decoded; pairs that fail to decode are
skipped by the caller. -/
def parsePair (seg : List Char) : Option (List Char × List Char) :=
  let k := seg.takeWhile (fun c => c ≠ '=')
  let v := (seg.dropWhile (fun c => c ≠ '=')).drop 1
  match pctDecode k, pctDecode v with
  | some dk, some dv => some (dk, dv)
  | _, _ => none

/-- `Query().Get(key)`: first value bound to the key, or empty. -/
def queryGet (key : List Char) (query : List Char) : List Char :=
  let pairs := (splitOnChar '&' query).filterMap parsePair
  match pairs.find? (fun p => p.1 = key) with
  | some p => p.2
  | none => []

def isCtrlChar (c : Char) : Bool := c.toNat < 32 || c.toNat == 127

/-- The query component of a URL: after the first `?`, before any `#`. -/
def queryOfURL (u : List Char) : List Char :=
  ((u.dropWhile (fun c => c ≠ '?')).drop 1).takeWhile (fun c => c ≠ '#')

/-- `extractCursorFromURL` (client.go lines 119-132): empty input gives empty;
an unparseable URL gives empty; otherwise the percent-decoded first value of
the `page[cursor]` query parameter (empty when absent). -/
def extractCursorFromURL (nextURL : String) : String :=
  if nextURL = "" then ""
  else if nextURL.data.any isCtrlChar then ""
  else String.mk (queryGet "page[cursor]".data (queryOfURL nextURL.data))

/-- The `links.next` field of the remote list-posts response (referenced as
`patreonResp.Links.Next`; absent links decode to the empty string). -/
structure RespLinks where
  next : String
deriving Repr, DecidableEq

/-- A fetched page as assembled by `FetchPosts` (models.PostsPage). -/
structure PostsPageMeta where
  nextCursor : String
  hasMore : Bool
deriving Repr, DecidableEq

/-- The cursor/hasMore assembly of `FetchPosts` (client.go lines 104-113):
`nextCursor` from `extractCursorFromURL(links.Next)` and
`hasMore := links.Next != ""`. -/
def postsPageOfLinks (links : RespLinks) : PostsPageMeta :=
  { nextCursor := extractCursorFromURL links.next
    hasMore := links.next ≠ "" }

/-! ## Local Cache Store
    (src/internal/db/database.go).  The `posts` table is modelled as a map
    from post id to row; `description` and `youtube_links` are nullable
    (`Option`), `details_cached` defaults to false.  Publish times are
    modelled as integers (chronological order is all the code uses).
    Timestamp bookkeeping (`cached_at`) is not modelled: no claim mentions
    it. -/

/-- One row of the `posts` table (database.go schema lines 79-93). -/
structure PostRow where
  campaignId : String
  type : String
  postType : String
  title : String
  patreonUrl : String
  currentUserCanView : Bool
  publishedAt : Int
  description : Option String
  youtubeLinks : Option String
  detailsCached : Bool
deriving Repr, DecidableEq

/-- The posts table keyed by primary key `id`. -/
def Db : Type := String → Option PostRow

/-- The summary fields passed to `SavePost` from a listing page. -/
structure PostSummary where
  id : String
  campaignId : String
  type : String
  postType : String
  title : String
  patreonUrl : String
  currentUserCanView : Bool
  publishedAt : Int
deriving Repr, DecidableEq

/-- The Go `db.CachedPost` struct as returned by `GetPost`: NULL description
and links read back as empty strings via `sql.NullString`. -/
structure CachedPost where
  id : String
  campaignId : String
  type : String
  postType : String
  title : String
  patreonUrl : String
  currentUserCanView : Bool
  publishedAt : Int
  description : String
  youtubeLinks : String
  detailsCached : Bool
deriving Repr, DecidableEq

def rowToCached (id : String) (r : PostRow) : CachedPost :=
  { id := id
    campaignId := r.campaignId
    type := r.type
    postType := r.postType
    title := r.title
    patreonUrl := r.patreonUrl
    currentUserCanView := r.currentUserCanView
    publishedAt := r.publishedAt
    description := r.description.getD ""
    youtubeLinks := r.youtubeLinks.getD ""
    detailsCached := r.detailsCached }

/-- Row produced for a fresh insert by `SavePost`: summary fields from the
call, detail columns at their defaults (NULL, NULL, FALSE). -/
def freshRow (p : PostSummary) : PostRow :=
  { campaignId := p.campaignId
    type := p.type
    postType := p.postType
    title := p.title
    patreonUrl := p.patreonUrl
    currentUserCanView := p.currentUserCanView
    publishedAt := p.publishedAt
    description := none
    youtubeLinks := none
    detailsCached := false }

/-- `SavePost` (database.go lines 129-145): `INSERT .. ON CONFLICT(id) DO
UPDATE`.  The conflict clause lists only `type, post_type, title,
patreon_url, current_user_can_view, published_at` (and the timestamp): it
does NOT list `campaign_id`, so an existing row keeps its stored campaign
id; detail columns and `details_cached` also keep the stored row's values.
A fresh insert sets every column from the call, with detail defaults. -/
def SavePost (p : PostSummary) (db : Db) : Db :=
  fun j =>
    if j = p.id then
      match db p.id with
      | some old =>
        some { freshRow p with
                 campaignId := old.campaignId
                 description := old.description
                 youtubeLinks := old.youtubeLinks
                 detailsCached := old.detailsCached }
      | none => some (freshRow p)
    else db j

/-- `SavePostDetails` (database.go lines 148-157): `UPDATE posts SET
description, youtube_links, details_cached = TRUE WHERE id = ?`; a missing id
updates zero rows. -/
def SavePostDetails (postID description youtubeLinks : String) (db : Db) : Db :=
  fun j =>
    if j = postID then
      (db postID).map fun r =>
        { r with
            description := some description
            youtubeLinks := some youtubeLinks
            detailsCached := true }
    else db j

/-- `GetPost` (database.go lines 160-195): `none` for a missing row
(`sql.ErrNoRows`), otherwise the row with NULL text columns read as "". -/
def GetPost (db : Db) (postID : String) : Option CachedPost :=
  (db postID).map (rowToCached postID)

/-- `IsPostDetailsCached` (database.go lines 243-252): false for a missing
row. -/
def IsPostDetailsCached (db : Db) (postID : String) : Bool :=
  match db postID with
  | some r => r.detailsCached
  | none => false

/-- `ClearPostDetails` (database.go lines 265-274): NULL the detail columns
and reset the flag; a missing id updates zero rows. -/
def ClearPostDetails (postID : String) (db : Db) : Db :=
  fun j =>
    if j = postID then
      (db postID).map fun r =>
        { r with description := none, youtubeLinks := none, detailsCached := false }
    else db j

def emptyDb : Db := fun _ => none

/-! ## Batch Extraction Workflow
    (src/unnamed/part_001, `extractLinksFromCampaign` lines 87-163 and the
    campaign driver `ExtractYouTubeLinks` lines 17-84).  The remote API is a
    function from cursor to result; sleeps have no observable effect and are
    omitted.  The state records, besides the accumulated links and the cache,
    the cursor of every page fetch issued and the id of every post processed,
    so that the stopping claims are about observable traces. -/

/-- A post summary as seen by the batch loop (models.Post). -/
structure BPost where
  id : String
  publishedAt : Int
deriving Repr, DecidableEq

/-- A fetched page (models.PostsPage). -/
structure BPage where
  posts : List BPost
  nextCursor : String
  hasMore : Bool
deriving Repr, DecidableEq

/-- A post-details fetch result (models.PostDetails). -/
structure BDetails where
  description : String
  youtubeLinks : List String
deriving Repr, DecidableEq

/-- The remote API for one campaign: page fetch by cursor and details fetch
by post id; `Except.error` models a failed request. -/
structure RemoteEnv where
  pages : String → Except String BPage
  details : String → Except String BDetails

/-- Observable state threaded through one campaign's extraction. -/
structure BatchState where
  db : Db
  links : List String
  fetchedPages : List String
  processedPosts : List String

/-- The date filter: `none` models the zero `time.Time` (no `--after` date);
`post.PublishedAt.Before(filterDate)` is integer `<`. -/
def beforeFilter (filterDate : Option Int) (p : BPost) : Bool :=
  match filterDate with
  | none => false
  | some d => p.publishedAt < d

/-- The per-post body of the page loop (part_001 lines 120-150): record the
post as processed; on a cache hit reuse the stored links (a malformed or
empty stored string contributes nothing); otherwise fetch details, cache them
and append their links.  A failed details fetch skips the post. -/
def processPost (env : RemoteEnv) (st : BatchState) (p : BPost) : BatchState :=
  let st := { st with processedPosts := st.processedPosts ++ [p.id] }
  match GetPost st.db p.id with
  | some cached =>
    if cached.detailsCached then
      if cached.youtubeLinks ≠ "" then
        match decodeLinks cached.youtubeLinks with
        | some ls => { st with links := st.links ++ ls }
        | none => st
      else st
    else
      match env.details p.id with
      | Except.error _ => st
      | Except.ok d =>
        { st with
            db := SavePostDetails p.id d.description (encodeLinks d.youtubeLinks) st.db
            links := st.links ++ d.youtubeLinks }
  | none =>
    match env.details p.id with
    | Except.error _ => st
    | Except.ok d =>
      { st with
          db := SavePostDetails p.id d.description (encodeLinks d.youtubeLinks) st.db
          links := st.links ++ d.youtubeLinks }

/-- The inner posts loop (part_001 lines 112-151): returns `true` when a post
before the filter date caused the early `return` for the whole campaign. -/
def processPosts (env : RemoteEnv) (filterDate : Option Int) :
    List BPost → BatchState → BatchState × Bool
  | [], st => (st, false)
  | p :: ps, st =>
    if beforeFilter filterDate p then (st, true)
    else processPosts env filterDate ps (processPost env st p)

/-- The pagination loop of `extractLinksFromCampaign` (part_001 lines
99-160): fetch the page for the cursor, process its posts, and continue with
the next cursor only when the early stop did not fire, `hasMore` holds and
the next cursor is non-empty.  The boolean result is `true` when the loop
finished within the fuel. -/
def extractLinksFromCampaign (env : RemoteEnv) (filterDate : Option Int) :
    Nat → String → BatchState → BatchState × Bool
  | 0, _, st => (st, false)
  | fuel + 1, cursor, st =>
    let st1 := { st with fetchedPages := st.fetchedPages ++ [cursor] }
    match env.pages cursor with
    | Except.error _ => (st1, true)
    | Except.ok page =>
      match processPosts env filterDate page.posts st1 with
      | (st2, true) => (st2, true)
      | (st2, false) =>
        if page.hasMore ∧ page.nextCursor ≠ "" then
          extractLinksFromCampaign env filterDate fuel page.nextCursor st2
        else (st2, true)

/-- The remote API over all campaigns: page fetches are per campaign id,
details fetches are global by post id. -/
structure RemoteEnvAll where
  pages : String → String → Except String BPage
  details : String → Except String BDetails

def envFor (env : RemoteEnvAll) (campaignId : String) : RemoteEnv :=
  { pages := env.pages campaignId, details := env.details }

/-- Per-campaign result of the batch driver. -/
structure CampaignRun where
  campaignId : String
  links : List String
  fetchedPages : List String
  processedPosts : List String
deriving Repr, DecidableEq

/-- The campaign driver (part_001 lines 43-68): each campaign starts at the
empty cursor with fresh accumulators; the cache is shared.  A campaign whose
fetch failed still contributes the links gathered before the failure. -/
def runCampaigns (env : RemoteEnvAll) (filterDate : Option Int) (fuel : Nat) :
    List String → Db → List CampaignRun × Db
  | [], db => ([], db)
  | cid :: rest, db =>
    let st0 : BatchState :=
      { db := db, links := [], fetchedPages := [], processedPosts := [] }
    let res := extractLinksFromCampaign (envFor env cid) filterDate fuel "" st0
    let tl := runCampaigns env filterDate fuel rest res.1.db
    ({ campaignId := cid
       links := res.1.links
       fetchedPages := res.1.fetchedPages
       processedPosts := res.1.processedPosts } :: tl.1, tl.2)

/-- First-seen dedup over strings, for the driver's global link merge
(part_001 lines 56-62). -/
def dedupStrings (seen : List String) : List String → List String
  | [] => []
  | x :: xs => if x ∈ seen then dedupStrings seen xs else x :: dedupStrings (x :: seen) xs

/-- The globally merged, first-seen-order deduplicated link list emitted by
the batch workflow. -/
def mergedLinks (runs : List CampaignRun) : List String :=
  dedupStrings [] (runs.map (fun r => r.links)).flatten

/-- Scenario B remote: campaign c1's first page returns posts dated
2024-06-01 and 2023-12-01 (descending) and advertises a second page; dates
are encoded as yyyymmdd integers. -/
def scenBEnv : RemoteEnvAll :=
  { pages := fun cid cursor =>
      if cid = "c1" then
        if cursor = "" then
          Except.ok { posts := [⟨"b1", 20240601⟩, ⟨"b2", 20231201⟩],
                      nextCursor := "CUR2", hasMore := true }
        else
          Except.ok { posts := [⟨"b3", 20240301⟩], nextCursor := "", hasMore := false }
      else Except.ok { posts := [], nextCursor := "", hasMore := false }
    details := fun _ =>
      Except.ok { description := "d",
                  youtubeLinks := ["https://www.youtube.com/watch?v=dQw4w9WgXcQ"] } }

/-! ## Interactive Browser: in-app clipboard
    (src/internal/ui/app.go, `Update` clipboard keys lines 262-291 and
    `handleDetailsKeys` add keys lines 517-553). -/

/-- The clipboard slice of the TUI model: the ordered link list and the
clipboard cursor. -/
structure Clipboard where
  links : List String
  cursor : Nat
deriving Repr, DecidableEq

/-- Key `a`/enter in the details view: append the selected link unless it is
already present (app.go lines 517-530). -/
def clipAddOne (cb : Clipboard) (link : String) : Clipboard :=
  if link ∈ cb.links then cb else { cb with links := cb.links ++ [link] }

/-- Key `A`: add every not-yet-present link, in order, checking against the
clipboard as it grows (app.go lines 531-553). -/
def clipAddAll (cb : Clipboard) (links : List String) : Clipboard :=
  links.foldl clipAddOne cb

/-- Key `x`: remove the link under the clipboard cursor, then pull the cursor
back when it fell off the new end (app.go lines 262-271).  Only reachable
with a non-empty clipboard. -/
def clipRemove (cb : Clipboard) : Clipboard :=
  let links := cb.links.take cb.cursor ++ cb.links.drop (cb.cursor + 1)
  let cursor := if cb.cursor ≥ links.length ∧ cb.cursor > 0 then cb.cursor - 1 else cb.cursor
  { links := links, cursor := cursor }

/-- Key `X`: clear the clipboard (app.go lines 272-279). -/
def clipClear (_ : Clipboard) : Clipboard :=
  { links := [], cursor := 0 }

/-- An add operation of the clipboard (the operations quantified over by the
no-duplicates invariant). -/
inductive ClipAddOp where
  | addOne (link : String)
  | addAll (links : List String)
deriving Repr, DecidableEq

def applyClipAdd (cb : Clipboard) : ClipAddOp → Clipboard
  | ClipAddOp.addOne l => clipAddOne cb l
  | ClipAddOp.addAll ls => clipAddAll cb ls

def applyClipAdds (cb : Clipboard) (ops : List ClipAddOp) : Clipboard :=
  ops.foldl applyClipAdd cb

/-! ## Interactive Browser: list pagination with cursor history
    (src/internal/ui/app.go, `handleListKeys` lines 430-474, refresh cursor
    derivation lines 434-439, and `PostsFetchedMsg` application lines
    330-349). -/

/-- The pagination slice of the TUI model. -/
structure PageState where
  currentPage : Nat
  nextCursor : String
  hasMore : Bool
  history : List String
deriving Repr, DecidableEq

/-- The cursor that identifies the currently displayed page — what plain
refresh (`r`) and error retry re-request: empty for page 1, otherwise the top
of the history stack (app.go lines 434-439). -/
def currentCursor (s : PageState) : String :=
  if 1 < s.currentPage ∧ s.history ≠ [] then (s.history.getLast?).getD "" else ""

/-- Key `n`/right (app.go lines 447-459): allowed only with `hasMore` and a
non-empty next cursor; pushes the empty sentinel once when leaving page 1,
pushes the new cursor, bumps the page number and issues a fetch for the new
cursor (returned as `some cursor`). -/
def pageForward (s : PageState) : PageState × Option String :=
  if s.hasMore ∧ s.nextCursor ≠ "" then
    let h1 := if s.currentPage = 1 then s.history ++ [""] else s.history
    ({ s with history := h1 ++ [s.nextCursor], currentPage := s.currentPage + 1 },
     some s.nextCursor)
  else (s, none)

/-- Key `p`/left (app.go lines 460-474): allowed only past page 1 with
non-empty history; pops one entry and re-fetches the cursor now on top
(empty when the stack emptied). -/
def pageBackward (s : PageState) : PageState × Option String :=
  if 1 < s.currentPage ∧ s.history ≠ [] then
    let h1 := s.history.dropLast
    ({ s with history := h1, currentPage := s.currentPage - 1 },
     some ((h1.getLast?).getD ""))
  else (s, none)

/-- Applying a successful `PostsFetchedMsg` to the pagination slice (app.go
lines 336-338): the response's cursor and flag replace the current ones;
page number and history are untouched. -/
def applyFetched (s : PageState) (nextCursor : String) (hasMore : Bool) : PageState :=
  { s with nextCursor := nextCursor, hasMore := hasMore }

/-! ## Interactive Browser: details force refresh
    (src/internal/ui/app.go, `handleDetailsKeys` key `R` lines 492-504 and
    the `PostDetailsFetchedMsg` error branch lines 351-356). -/

inductive UiState where
  | input
  | loading
  | list
  | details
  | error
deriving Repr, DecidableEq

/-- A listed post as held in the in-memory model. -/
structure UiPost where
  id : String
  detailsCached : Bool
deriving Repr, DecidableEq

/-- The slice of the TUI model that the details force refresh touches. -/
structure UiModel where
  state : UiState
  posts : List UiPost
  cursor : Nat
  db : Db

/-- Key `R` in the details view (app.go lines 492-504): clear the post's
cached detail in the store, mark it uncached in the in-memory list, enter
`Loading` and dispatch a details fetch (returned as `some postID`). -/
def detailsForceRefresh (m : UiModel) : UiModel × Option String :=
  match m.posts[m.cursor]? with
  | some post =>
    if m.posts ≠ [] then
      ({ m with
           db := ClearPostDetails post.id m.db
           posts := m.posts.set m.cursor { post with detailsCached := false }
           state := UiState.loading },
       some post.id)
    else (m, none)
  | none => (m, none)

/-- The `PostDetailsFetchedMsg` error branch (app.go lines 351-356): only the
screen changes to `Error`; the store and the post list keep their values. -/
def applyDetailsFetchError (m : UiModel) : UiModel :=
  { m with state := UiState.error }

/-! ## Lemmas about the link extractor -/

theorem takeClass_spec (n : Nat) : ∀ (s vid rest : List Char),
    takeClass n s = some (vid, rest) → vid.length = n ∧ vid.all isIdChar = true := by
  induction n with
  | zero =>
    intro s vid rest h
    simp only [takeClass, Option.some.injEq, Prod.mk.injEq] at h
    simp [← h.1]
  | succ n ih =>
    intro s vid rest h
    match s with
    | [] => simp [takeClass] at h
    | c :: cs =>
      simp only [takeClass] at h
      by_cases hc : isIdChar c
      · rw [if_pos hc] at h
        cases htc : takeClass n cs with
        | none => rw [htc] at h; exact absurd h (by simp)
        | some p =>
          obtain ⟨vid0, rest0⟩ := p
          rw [htc] at h
          simp only [Option.some.injEq, Prod.mk.injEq] at h
          obtain ⟨hvid, -⟩ := h
          obtain ⟨hl, ha⟩ := ih cs vid0 rest0 htc
          subst hvid
          simp [List.all_cons, hc, hl, ha]
      · rw [if_neg hc] at h
        exact absurd h (by simp)

theorem tryOptThen_some (opt s : List Char)
    (k : List Char → Option (List Char × List Char)) (r : List Char × List Char)
    (h : tryOptThen opt s k = some r) : ∃ t, k t = some r := by
  unfold tryOptThen at h
  split at h
  next s2 heq =>
    split at h
    next r2 hk => exact ⟨s2, hk.trans h⟩
    next hk => exact ⟨s, h⟩
  next heq => exact ⟨s, h⟩

theorem matchSite_spec (site s vid rest : List Char)
    (h : matchSite site s = some (vid, rest)) :
    vid.length = 11 ∧ vid.all isIdChar = true := by
  unfold matchSite at h
  cases hsp : stripPre site s with
  | none => rw [hsp] at h; exact absurd h (by simp)
  | some s5 =>
    rw [hsp] at h
    exact takeClass_spec 11 s5 vid rest h

theorem matchShape_spec (www : Bool) (site s vid rest : List Char)
    (h : matchShape www site s = some (vid, rest)) :
    vid.length = 11 ∧ vid.all isIdChar = true := by
  unfold matchShape at h
  split at h
  next => exact Option.noConfusion h
  next s1 heq =>
    obtain ⟨t, ht⟩ := tryOptThen_some _ _ _ _ h
    split at ht
    next => exact Option.noConfusion ht
    next s3 heq2 =>
      cases www with
      | false =>
        rw [if_neg (by simp)] at ht
        exact matchSite_spec site s3 vid rest ht
      | true =>
        rw [if_pos rfl] at ht
        obtain ⟨t2, ht2⟩ := tryOptThen_some _ _ _ _ ht
        exact matchSite_spec site t2 vid rest ht2

theorem findIdsF_mem (www : Bool) (site : List Char) :
    ∀ (fuel : Nat) (s vid : List Char), vid ∈ findIdsF www site fuel s →
      ∃ s2 rest, matchShape www site s2 = some (vid, rest) := by
  intro fuel
  induction fuel with
  | zero => intro s vid h; simp [findIdsF] at h
  | succ fuel ih =>
    intro s vid h
    match s with
    | [] => simp [findIdsF] at h
    | c :: cs =>
      simp only [findIdsF] at h
      cases hm : matchShape www site (c :: cs) with
      | none => rw [hm] at h; exact ih cs vid h
      | some p =>
        obtain ⟨v0, after⟩ := p
        rw [hm] at h
        rcases List.mem_cons.mp h with heq | hmem
        · subst heq; exact ⟨c :: cs, after, hm⟩
        · exact ih after vid hmem

theorem rawIds_mem (content vid : List Char) (h : vid ∈ rawIds content) :
    vid.length = 11 ∧ vid.all isIdChar = true := by
  unfold rawIds at h
  rw [List.mem_flatten] at h
  obtain ⟨l, hl, hvid⟩ := h
  rw [List.mem_map] at hl
  obtain ⟨pw, -, hlf⟩ := hl
  subst hlf
  obtain ⟨s2, rest, hm⟩ := findIdsF_mem pw.1 pw.2 content.length content vid hvid
  exact matchShape_spec pw.1 pw.2 s2 vid rest hm

theorem extractLoop_eq : ∀ (l seen : List (List Char)) (links : List String),
    extractLoop l seen links = links ++ (dedupFrom seen l).map canonicalURL := by
  intro l
  induction l with
  | nil => intro seen links; simp [extractLoop, dedupFrom]
  | cons x xs ih =>
    intro seen links
    by_cases hx : x ∈ seen
    · simp [extractLoop, dedupFrom, hx, ih]
    · simp [extractLoop, dedupFrom, hx, ih]

theorem dedupFrom_sub : ∀ (l seen : List (List Char)) (x : List Char),
    x ∈ dedupFrom seen l → x ∈ l := by
  intro l
  induction l with
  | nil => intro seen x h; simp [dedupFrom] at h
  | cons y ys ih =>
    intro seen x h
    simp only [dedupFrom] at h
    by_cases hy : y ∈ seen
    · rw [if_pos hy] at h
      exact List.mem_cons_of_mem y (ih seen x h)
    · rw [if_neg hy] at h
      rcases List.mem_cons.mp h with heq | hmem
      · subst heq; exact List.mem_cons_self x ys
      · exact List.mem_cons_of_mem y (ih (y :: seen) x hmem)

theorem dedupFrom_notin_seen : ∀ (l seen : List (List Char)) (x : List Char),
    x ∈ dedupFrom seen l → x ∉ seen := by
  intro l
  induction l with
  | nil => intro seen x h; simp [dedupFrom] at h
  | cons y ys ih =>
    intro seen x h
    simp only [dedupFrom] at h
    by_cases hy : y ∈ seen
    · rw [if_pos hy] at h
      exact ih seen x h
    · rw [if_neg hy] at h
      rcases List.mem_cons.mp h with heq | hmem
      · subst heq; exact hy
      · intro hxs
        exact ih (y :: seen) x hmem (List.mem_cons_of_mem y hxs)

theorem dedupFrom_nodup : ∀ (l seen : List (List Char)), (dedupFrom seen l).Nodup := by
  intro l
  induction l with
  | nil => intro seen; simp [dedupFrom]
  | cons y ys ih =>
    intro seen
    simp only [dedupFrom]
    by_cases hy : y ∈ seen
    · rw [if_pos hy]; exact ih seen
    · rw [if_neg hy]
      refine List.nodup_cons.mpr ⟨?_, ih (y :: seen)⟩
      intro hmem
      exact dedupFrom_notin_seen ys (y :: seen) y hmem (List.mem_cons_self y seen)

theorem canonicalURL_injective : Function.Injective canonicalURL := by
  intro a b h
  unfold canonicalURL at h
  have h2 := congrArg String.data h
  simpa [String.data_append] using h2

/-- C1: every element returned by `ExtractYouTubeLinks` is exactly
`https://www.youtube.com/watch?v=` followed by an 11-character id over
`[A-Za-z0-9_-]`; no two elements carry the same id within one call; and the
output is the first-seen-order deduplication of the matches of the five URL
shapes scanned in the fixed pattern priority order. -/
theorem extractYouTubeLinks_spec (content : String) :
    (∀ link ∈ ExtractYouTubeLinks content, ∃ vid : List Char,
        link = canonicalURL vid ∧ vid.length = 11 ∧ vid.all isIdChar = true) ∧
    ExtractYouTubeLinks content = (dedupFrom [] (rawIds content.data)).map canonicalURL ∧
    (dedupFrom [] (rawIds content.data)).Nodup ∧
    (ExtractYouTubeLinks content).Nodup := by
  have heq : ExtractYouTubeLinks content =
      (dedupFrom [] (rawIds content.data)).map canonicalURL := by
    unfold ExtractYouTubeLinks
    simpa using extractLoop_eq (rawIds content.data) [] []
  refine ⟨?_, heq, dedupFrom_nodup _ _, ?_⟩
  · intro link hlink
    rw [heq, List.mem_map] at hlink
    obtain ⟨vid, hvid, hcan⟩ := hlink
    obtain ⟨hl, ha⟩ := rawIds_mem content.data vid (dedupFrom_sub _ _ _ hvid)
    exact ⟨vid, hcan.symm, hl, ha⟩
  · rw [heq]
    exact (dedupFrom_nodup _ _).map canonicalURL_injective

/-- Witness for C1: the canonical-form property instantiated on concrete
content holding the same video in two URL shapes. -/
theorem extractYouTubeLinks_spec_witness :
    ∃ vid : List Char,
      "https://www.youtube.com/watch?v=dQw4w9WgXcQ" = canonicalURL vid ∧
      vid.length = 11 ∧ vid.all isIdChar = true :=
  (extractYouTubeLinks_spec
      "Check https://youtu.be/dQw4w9WgXcQ and https://www.youtube.com/watch?v=dQw4w9WgXcQ&feature=share").1
    "https://www.youtube.com/watch?v=dQw4w9WgXcQ" (by decide)

/-! ## Lemmas about whitespace collapsing and trimming -/

theorem dropWhile_head_false (p : Char → Bool) : ∀ (l : List Char) (d : Char),
    (l.dropWhile p).head? = some d → p d = false := by
  intro l
  induction l with
  | nil => intro d h; simp [List.dropWhile] at h
  | cons c cs ih =>
    intro d h
    rw [List.dropWhile_cons] at h
    by_cases hc : p c = true
    · rw [if_pos hc] at h; exact ih d h
    · rw [if_neg hc] at h
      simp only [List.head?_cons, Option.some.injEq] at h
      subst h
      simpa using hc

theorem noRun_cons_nonspace (c : Char) (l : List Char) (hc : isGoSpace c = false)
    (hl : noRun l = true) : noRun (c :: l) = true := by
  cases l with
  | nil => simp [noRun]
  | cons d t => simp [noRun, hc] at hl ⊢; exact hl

theorem noRun_cons_space (l : List Char) (hl : noRun l = true)
    (hhead : ∀ d, l.head? = some d → isGoSpace d = false) :
    noRun (' ' :: l) = true := by
  cases l with
  | nil => simp [noRun]
  | cons d t =>
    have hd := hhead d rfl
    simp [noRun, hd] at hl ⊢
    exact hl

theorem noRun_tail (a : Char) (l : List Char) (h : noRun (a :: l) = true) :
    noRun l = true := by
  cases l with
  | nil => simp [noRun]
  | cons b t =>
    simp only [noRun, Bool.and_eq_true] at h
    exact h.2

theorem collapseWsF_head (fuel : Nat) : ∀ (l : List Char),
    (∀ d, l.head? = some d → isGoSpace d = false) →
    ∀ d, (collapseWsF fuel l).head? = some d → isGoSpace d = false := by
  induction fuel with
  | zero => intro l hl d h; exact hl d h
  | succ fuel ih =>
    intro l hl d h
    cases l with
    | nil => simp [collapseWsF] at h
    | cons c cs =>
      by_cases hc : isGoSpace c = true
      · exact absurd (hl c rfl) (by simp [hc])
      · simp only [collapseWsF] at h
        rw [if_neg hc] at h
        simp only [List.head?_cons, Option.some.injEq] at h
        subst h
        simpa using hc

theorem noRun_collapseWsF (fuel : Nat) : ∀ (l : List Char), l.length ≤ fuel →
    noRun (collapseWsF fuel l) = true := by
  induction fuel with
  | zero =>
    intro l hl
    have : l = [] := List.eq_nil_of_length_eq_zero (Nat.le_zero.mp hl)
    subst this
    simp [collapseWsF, noRun]
  | succ fuel ih =>
    intro l hl
    cases l with
    | nil => simp [collapseWsF, noRun]
    | cons c cs =>
      simp only [collapseWsF]
      simp only [List.length_cons, Nat.succ_le_succ_iff] at hl
      by_cases hc : isGoSpace c = true
      · rw [if_pos hc]
        have hlen : (cs.dropWhile isGoSpace).length ≤ fuel :=
          le_trans (List.dropWhile_sublist isGoSpace).length_le hl
        refine noRun_cons_space _ (ih _ hlen) ?_
        intro d hd
        exact collapseWsF_head fuel _ (fun e he => dropWhile_head_false isGoSpace cs e he) d hd
      · rw [if_neg hc]
        exact noRun_cons_nonspace c _ (by simpa using hc) (ih cs hl)

theorem noRun_dropWhile (p : Char → Bool) : ∀ (l : List Char), noRun l = true →
    noRun (l.dropWhile p) = true := by
  intro l
  induction l with
  | nil => intro h; simpa [List.dropWhile]
  | cons c cs ih =>
    intro h
    rw [List.dropWhile_cons]
    by_cases hc : p c = true
    · rw [if_pos hc]; exact ih (noRun_tail c cs h)
    · rw [if_neg hc]; exact h

theorem noRun_snoc (a : Char) : ∀ (l : List Char),
    noRun l = true →
    (∀ c, l.getLast? = some c → (!(isGoSpace c && isGoSpace a)) = true) →
    noRun (l ++ [a]) = true := by
  intro l
  induction l with
  | nil => intro _ _; simp [noRun]
  | cons c cs ih =>
    intro h hlast
    cases cs with
    | nil =>
      have := hlast c rfl
      simp [noRun, this]
    | cons d t =>
      simp only [noRun, Bool.and_eq_true] at h
      have hrec := ih h.2 (fun e he => hlast e (by simpa [List.getLast?_cons_cons] using he))
      simp only [List.cons_append] at hrec ⊢
      simp only [noRun, Bool.and_eq_true]
      exact ⟨h.1, hrec⟩

theorem noRun_reverse : ∀ (l : List Char), noRun l = true → noRun l.reverse = true := by
  intro l
  induction l with
  | nil => intro h; simpa
  | cons c cs ih =>
    intro h
    rw [List.reverse_cons]
    refine noRun_snoc c cs.reverse (ih (noRun_tail c cs h)) ?_
    intro e he
    rw [List.getLast?_reverse] at he
    cases cs with
    | nil => simp at he
    | cons d t =>
      simp only [List.head?_cons, Option.some.injEq] at he
      subst he
      simp only [noRun, Bool.and_eq_true] at h
      simpa [Bool.and_comm] using h.1

theorem getLast?_dropWhile (p : Char → Bool) : ∀ (l : List Char),
    l.dropWhile p ≠ [] → (l.dropWhile p).getLast? = l.getLast? := by
  intro l
  induction l with
  | nil => intro h; simp [List.dropWhile] at h
  | cons c cs ih =>
    intro h
    rw [List.dropWhile_cons] at h ⊢
    by_cases hc : p c = true
    · rw [if_pos hc] at h ⊢
      rw [ih h]
      cases cs with
      | nil => simp [List.dropWhile] at h
      | cons d t => simp [List.getLast?_cons_cons]
    · rw [if_neg hc]

theorem trimEnds_head (s : List Char) (d : Char) (h : (trimEnds s).head? = some d) :
    isUniSpace d = false := by
  unfold trimEnds at h
  rw [List.head?_reverse] at h
  have hne : (s.dropWhile isUniSpace).reverse.dropWhile isUniSpace ≠ [] := by
    intro hnil
    rw [hnil] at h
    simp at h
  rw [getLast?_dropWhile _ _ hne, List.getLast?_reverse] at h
  exact dropWhile_head_false _ _ _ h

theorem trimEnds_last (s : List Char) (d : Char) (h : (trimEnds s).getLast? = some d) :
    isUniSpace d = false := by
  unfold trimEnds at h
  rw [List.getLast?_reverse] at h
  exact dropWhile_head_false _ _ _ h

theorem noRun_trimEnds (s : List Char) (h : noRun s = true) :
    noRun (trimEnds s) = true := by
  unfold trimEnds
  exact noRun_reverse _ (noRun_dropWhile _ _ (noRun_reverse _ (noRun_dropWhile _ _ h)))

theorem stringDataMk (l : List Char) : (String.mk l).data = l := rfl

theorem stripHTML_data (html : String) :
    (stripHTML html).data = stripHTMLChars html.data := by
  unfold stripHTML
  exact stringDataMk _

theorem stripHTMLChars_noRun (l : List Char) : noRun (stripHTMLChars l) = true := by
  unfold stripHTMLChars
  exact noRun_trimEnds _ (noRun_collapseWsF _ _ (le_refl _))

theorem stripHTMLChars_head (l : List Char) (d : Char)
    (h : (stripHTMLChars l).head? = some d) : isUniSpace d = false := by
  unfold stripHTMLChars at h
  exact trimEnds_head _ d h

theorem stripHTMLChars_last (l : List Char) (d : Char)
    (h : (stripHTMLChars l).getLast? = some d) : isUniSpace d = false := by
  unfold stripHTMLChars at h
  exact trimEnds_last _ d h

/-- C4: `stripHTML` applies, in order, script-block removal, style-block
removal, tag removal, decoding of exactly the six entities, whitespace-run
collapsing and trimming of both ends; the collapsing and trimming really
leave no whitespace runs and no boundary whitespace; and the example
`<p>Hi&nbsp;<b>there</b></p>` strips to `Hi there`. -/
theorem stripHTML_spec (html : String) :
    stripHTML html = String.mk (trimEnds (collapseWs (decodeEntities
      (removeTags (removeStyleBlocks (removeScriptBlocks html.data)))))) ∧
    noRun (stripHTML html).data = true ∧
    (∀ d, (stripHTML html).data.head? = some d → isUniSpace d = false) ∧
    (∀ d, (stripHTML html).data.getLast? = some d → isUniSpace d = false) ∧
    stripHTML "<p>Hi&nbsp;<b>there</b></p>" = "Hi there" := by
  refine ⟨rfl, ?_, ?_, ?_, by decide⟩
  · rw [stripHTML_data]
    exact stripHTMLChars_noRun html.data
  · intro d h
    rw [stripHTML_data] at h
    exact stripHTMLChars_head html.data d h
  · intro d h
    rw [stripHTML_data] at h
    exact stripHTMLChars_last html.data d h

/-- Witness for C4: the boundary property discharged on the concrete
example. -/
theorem stripHTML_spec_witness : isUniSpace 'H' = false :=
  (stripHTML_spec "<p>Hi&nbsp;<b>there</b></p>").2.2.1 'H' (by decide)

/-! ## Lemmas about the link-list serialization -/

theorem stringMkData (s : String) : String.mk s.data = s := rfl

theorem escChars_round : ∀ (s rest : List Char),
    parseStrBody (escChars s ++ '"' :: rest) = some (s, rest) := by
  intro s
  induction s with
  | nil =>
    intro rest
    rw [show escChars [] ++ '"' :: rest = '"' :: rest from by simp [escChars]]
    rw [parseStrBody.eq_def]
    simp
  | cons c cs ih =>
    intro rest
    by_cases hc : (c = '"' || c = '\\') = true
    · rw [show escChars (c :: cs) = '\\' :: c :: escChars cs from by
        simp only [escChars, if_pos hc]]
      rw [List.cons_append, List.cons_append, parseStrBody.eq_def]
      simp only []
      rw [if_pos trivial, ih]
      rfl
    · rw [show escChars (c :: cs) = c :: escChars cs from by
        simp only [escChars, if_neg hc]]
      rw [List.cons_append, parseStrBody.eq_def]
      simp only []
      have h1 : ¬(c = '"') := by intro h; subst h; simp at hc
      have h2 : ¬(c = '\\') := by intro h; subst h; simp at hc
      rw [if_neg h1, if_neg h2, ih]
      rfl

theorem encodeItems_length : ∀ (items : List (List Char)),
    items.length ≤ (encodeItems items).length := by
  intro items
  induction items with
  | nil => simp [encodeItems]
  | cons s t ih =>
    cases t with
    | nil => simp [encodeItems, encodeStrChars]
    | cons s2 t2 =>
      simp only [encodeItems, encodeStrChars] at ih ⊢
      simp only [List.length_append, List.length_cons] at ih ⊢
      omega

theorem parseItems_round : ∀ (items : List (List Char)) (fuel : Nat) (rest : List Char),
    items.length < fuel →
    parseItemsF fuel (encodeItems items ++ ']' :: rest) = some (items, rest) := by
  intro items
  induction items with
  | nil =>
    intro fuel rest hf
    match fuel, hf with
    | fuel + 1, _ => simp [encodeItems, parseItemsF]
  | cons s t ih =>
    intro fuel rest hf
    match fuel, hf with
    | fuel + 1, hf =>
      cases t with
      | nil =>
        show parseItemsF (fuel + 1) (encodeStrChars s ++ ']' :: rest) = some ([s], rest)
        rw [show encodeStrChars s ++ ']' :: rest =
              '"' :: (escChars s ++ '"' :: ']' :: rest) from by
          simp [encodeStrChars]]
        rw [parseItemsF.eq_def]
        simp only []
        rw [if_pos trivial, escChars_round]
        simp
      | cons s2 t2 =>
        show parseItemsF (fuel + 1)
            ((encodeStrChars s ++ ',' :: encodeItems (s2 :: t2)) ++ ']' :: rest) =
          some (s :: s2 :: t2, rest)
        have hhead : ∃ u, encodeItems (s2 :: t2) = '"' :: u := by
          cases t2 with
          | nil =>
            exact ⟨escChars s2 ++ ['"'], by simp [encodeItems, encodeStrChars]⟩
          | cons a b =>
            exact ⟨escChars s2 ++ '"' :: ',' :: encodeItems (a :: b),
              by simp [encodeItems, encodeStrChars]⟩
        obtain ⟨u, hu⟩ := hhead
        rw [show (encodeStrChars s ++ ',' :: encodeItems (s2 :: t2)) ++ ']' :: rest =
              '"' :: (escChars s ++ '"' :: ',' :: (encodeItems (s2 :: t2) ++ ']' :: rest)) from by
          simp [encodeStrChars]]
        rw [parseItemsF.eq_def]
        simp only []
        rw [if_pos trivial, escChars_round]
        simp only []
        rw [if_pos trivial]
        rw [hu]
        simp only [List.cons_append]
        rw [if_neg (by decide), if_neg (by decide), if_pos trivial]
        rw [show ('"' : Char) :: (u ++ ']' :: rest) = encodeItems (s2 :: t2) ++ ']' :: rest from by
          rw [hu]; simp]
        rw [ih fuel rest (by simp at hf ⊢; omega)]
        rfl

theorem decode_encode (links : List String) :
    decodeLinks (encodeLinks links) = some links := by
  unfold encodeLinks decodeLinks
  rw [stringDataMk, List.cons_append]
  simp only [decodeLinksChars]
  rw [if_pos trivial]
  have hlen : (links.map String.data).length <
      (encodeItems (links.map String.data) ++ [']']).length + 1 := by
    have := encodeItems_length (links.map String.data)
    simp only [List.length_append, List.length_cons]
    omega
  rw [show encodeItems (links.map String.data) ++ [']'] =
        encodeItems (links.map String.data) ++ ']' :: ([] : List Char) from rfl]
  rw [parseItems_round _ _ _ hlen]
  rw [show afterItems (some (links.map String.data, [])) =
        some ((links.map String.data).map String.mk) from rfl]
  rw [List.map_map]
  exact congrArg some (List.map_id'' (fun x => stringMkData x) links)

/-- Counterexample to C7 as stated: upserting a post whose call carries
campaign id "c2" over an existing row stored under campaign id "c1" leaves
the stored campaign id at "c1" — the `ON CONFLICT(id) DO UPDATE` clause does
not list `campaign_id`, so not every summary field takes the new call's
value. -/
theorem savePost_campaignId_counterexample :
    (SavePost ⟨"p1", "c2", "post", "text_post", "new title", "/p/new", false, 20240202⟩
        (fun j => if j = "p1" then
          some ⟨"c1", "post", "text_post", "old title", "/p/old", true, 20240101,
            some "old desc", some "[]", true⟩
          else none)
        "p1").map (fun r => r.campaignId) = some "c1" ∧
    "c1" ≠ "c2" := by
  constructor
  · decide
  · decide

/-- C7 amended: `SavePost` writes only the summary columns listed in its
conflict clause: for an existing id the stored description, links and
`detailsCached` flag are untouched — and so is the stored campaign id, which
the conflict clause omits — while type, post type, title, URL, visibility
and publish time take the new call's values; for a new id every column comes
from the call with the detail fields at their empty defaults and
`detailsCached` false; rows of other ids are untouched. -/
theorem savePost_spec_amended (db : Db) (p : PostSummary) :
    (∀ old, db p.id = some old →
      SavePost p db p.id = some { freshRow p with
        campaignId := old.campaignId
        description := old.description
        youtubeLinks := old.youtubeLinks
        detailsCached := old.detailsCached }) ∧
    (db p.id = none → SavePost p db p.id = some (freshRow p)) ∧
    (∀ j, j ≠ p.id → SavePost p db j = db j) := by
  refine ⟨?_, ?_, ?_⟩
  · intro old hold
    simp [SavePost, hold]
  · intro hnone
    simp [SavePost, hnone]
  · intro j hj
    simp [SavePost, hj]

/-- Witness for C7 (amended): a concrete upsert over an existing row of a
different campaign keeps the stored campaign id and the detail fields while
overwriting the other summary fields. -/
theorem savePost_spec_amended_witness :
    SavePost ⟨"p1", "c2", "post", "text_post", "new title", "/p/new", false, 20240202⟩
        (fun j => if j = "p1" then
          some ⟨"c1", "post", "text_post", "old title", "/p/old", true, 20240101,
            some "old desc", some "[]", true⟩
          else none)
        "p1" =
      some ⟨"c1", "post", "text_post", "new title", "/p/new", false, 20240202,
        some "old desc", some "[]", true⟩ :=
  (savePost_spec_amended
      (fun j => if j = "p1" then
        some ⟨"c1", "post", "text_post", "old title", "/p/old", true, 20240101,
          some "old desc", some "[]", true⟩
        else none)
      ⟨"p1", "c2", "post", "text_post", "new title", "/p/new", false, 20240202⟩).1
    ⟨"c1", "post", "text_post", "old title", "/p/old", true, 20240101,
      some "old desc", some "[]", true⟩ (by decide)

/-- C8: for a stored post id, `SavePostDetails` followed by `GetPost` returns
a present post whose description is exactly the saved one, whose stored link
string deserializes back to the original link sequence in order, and whose
`detailsCached` flag is true. -/
theorem savePostDetails_getPost_roundtrip (db : Db) (id desc : String)
    (links : List String) (old : PostRow) (hold : db id = some old) :
    ∃ cp, GetPost (SavePostDetails id desc (encodeLinks links) db) id = some cp ∧
      cp.description = desc ∧ decodeLinks cp.youtubeLinks = some links ∧
      cp.detailsCached = true := by
  refine ⟨rowToCached id { old with
      description := some desc
      youtubeLinks := some (encodeLinks links)
      detailsCached := true }, ?_, rfl, ?_, rfl⟩
  · simp [GetPost, SavePostDetails, hold]
  · show decodeLinks ((some (encodeLinks links)).getD "") = some links
    exact decode_encode links

/-! ## Lemmas about the in-app clipboard -/

theorem clipAddOne_nodup (cb : Clipboard) (l : String) (h : cb.links.Nodup) :
    (clipAddOne cb l).links.Nodup := by
  unfold clipAddOne
  by_cases hl : l ∈ cb.links
  · rw [if_pos hl]; exact h
  · rw [if_neg hl]
    show (cb.links ++ [l]).Nodup
    refine h.append (List.nodup_singleton l) ?_
    intro a ha hb
    rw [List.mem_singleton] at hb
    subst hb
    exact hl ha

theorem clipAddAll_nodup : ∀ (ls : List String) (cb : Clipboard), cb.links.Nodup →
    (clipAddAll cb ls).links.Nodup := by
  intro ls
  induction ls with
  | nil => intro cb h; exact h
  | cons x xs ih =>
    intro cb h
    exact ih (clipAddOne cb x) (clipAddOne_nodup cb x h)

theorem applyClipAdds_nodup : ∀ (ops : List ClipAddOp) (cb : Clipboard), cb.links.Nodup →
    (applyClipAdds cb ops).links.Nodup := by
  intro ops
  induction ops with
  | nil => intro cb h; exact h
  | cons op t ih =>
    intro cb h
    cases op with
    | addOne l => exact ih (clipAddOne cb l) (clipAddOne_nodup cb l h)
    | addAll ls => exact ih (clipAddAll cb ls) (clipAddAll_nodup ls cb h)

/-- C5: starting from a duplicate-free clipboard, any sequence of add-one and
add-all operations leaves the clipboard duplicate-free; and a remove at a
valid cursor on a non-empty clipboard shrinks the sequence by exactly one and
leaves the cursor inside the new bounds (0 when the clipboard emptied). -/
theorem clipboard_spec :
    (∀ (cb : Clipboard) (ops : List ClipAddOp), cb.links.Nodup →
      (applyClipAdds cb ops).links.Nodup) ∧
    (∀ cb : Clipboard, cb.links ≠ [] → cb.cursor < cb.links.length →
      (clipRemove cb).links.length + 1 = cb.links.length ∧
      ((clipRemove cb).links = [] → (clipRemove cb).cursor = 0) ∧
      ((clipRemove cb).links ≠ [] →
        (clipRemove cb).cursor < (clipRemove cb).links.length)) := by
  refine ⟨fun cb ops h => applyClipAdds_nodup ops cb h, ?_⟩
  intro cb hne hcur
  have hpos : 0 < cb.links.length := List.length_pos.mpr hne
  have hL : (cb.links.take cb.cursor ++ cb.links.drop (cb.cursor + 1)).length
      = cb.links.length - 1 := by
    simp only [List.length_append, List.length_take, List.length_drop]
    omega
  have hlinks : (clipRemove cb).links =
      cb.links.take cb.cursor ++ cb.links.drop (cb.cursor + 1) := rfl
  refine ⟨?_, ?_, ?_⟩
  · rw [hlinks, hL]; omega
  · intro hnil
    rw [hlinks] at hnil
    have hlen0 := congrArg List.length hnil
    rw [hL] at hlen0
    simp only [List.length_nil] at hlen0
    have hc0 : cb.cursor = 0 := by omega
    show (if cb.cursor ≥ (cb.links.take cb.cursor ++ cb.links.drop (cb.cursor + 1)).length
          ∧ cb.cursor > 0 then cb.cursor - 1 else cb.cursor) = 0
    rw [hc0]
    simp
  · intro hne2
    rw [hlinks] at hne2
    have hL1 : 0 < (cb.links.take cb.cursor ++ cb.links.drop (cb.cursor + 1)).length :=
      List.length_pos.mpr hne2
    rw [hL] at hL1
    show (if cb.cursor ≥ (cb.links.take cb.cursor ++ cb.links.drop (cb.cursor + 1)).length
          ∧ cb.cursor > 0 then cb.cursor - 1 else cb.cursor) <
      (cb.links.take cb.cursor ++ cb.links.drop (cb.cursor + 1)).length
    rw [hL]
    split
    next hcond => omega
    next hcond =>
      rw [Classical.not_and_iff_or_not_not] at hcond
      omega

/-- Witness for C5: both clipboard invariants discharged at a concrete
clipboard. -/
theorem clipboard_spec_witness :
    (applyClipAdds ⟨[], 0⟩
      [ClipAddOp.addOne "https://www.youtube.com/watch?v=dQw4w9WgXcQ",
       ClipAddOp.addAll ["https://www.youtube.com/watch?v=dQw4w9WgXcQ",
                         "https://www.youtube.com/watch?v=abcdefghijk"]]).links.Nodup ∧
    ((clipRemove ⟨["a", "b", "c"], 2⟩).links.length + 1 = 3 ∧
      ((clipRemove ⟨["a", "b", "c"], 2⟩).links = [] →
        (clipRemove ⟨["a", "b", "c"], 2⟩).cursor = 0) ∧
      ((clipRemove ⟨["a", "b", "c"], 2⟩).links ≠ [] →
        (clipRemove ⟨["a", "b", "c"], 2⟩).cursor <
          (clipRemove ⟨["a", "b", "c"], 2⟩).links.length)) :=
  ⟨clipboard_spec.1 ⟨[], 0⟩ _ (by decide),
   clipboard_spec.2 ⟨["a", "b", "c"], 2⟩ (by decide) (by decide)⟩

/-! ## C6: pagination forward-then-backward -/

/-- C6: when page-forward is permitted (`hasMore` with a non-empty next
cursor) and the page number is at least 1 (it starts at 1 and never drops
below), a forward navigation — whatever page the network then returns —
followed immediately by a backward navigation restores the page number, and
the backward step re-fetches exactly the cursor that identified the page
shown before the forward step; the restored state's current cursor is that
same cursor. -/
theorem pagination_forward_backward (s : PageState) (next2 : String) (hm2 : Bool)
    (hfwd : s.hasMore = true ∧ s.nextCursor ≠ "") (hpage : 1 ≤ s.currentPage) :
    (pageBackward (applyFetched (pageForward s).1 next2 hm2)).1.currentPage
        = s.currentPage ∧
    (pageBackward (applyFetched (pageForward s).1 next2 hm2)).2
        = some (currentCursor s) ∧
    currentCursor (pageBackward (applyFetched (pageForward s).1 next2 hm2)).1
        = currentCursor s := by
  have hs1 : (pageForward s).1 =
      { s with
          history := (if s.currentPage = 1 then s.history ++ [""] else s.history)
            ++ [s.nextCursor]
          currentPage := s.currentPage + 1 } := by
    unfold pageForward
    rw [if_pos ⟨hfwd.1, hfwd.2⟩]
  rw [hs1]
  set h1 := if s.currentPage = 1 then s.history ++ [""] else s.history with hh1
  have hcond : 1 < s.currentPage + 1 ∧ (h1 ++ [s.nextCursor]) ≠ [] := by
    constructor
    · omega
    · simp
  have hback : pageBackward (applyFetched
      { s with history := h1 ++ [s.nextCursor], currentPage := s.currentPage + 1 }
      next2 hm2) =
      ({ s with
          history := h1
          currentPage := s.currentPage + 1 - 1
          nextCursor := next2
          hasMore := hm2 },
       some ((h1.getLast?).getD "")) := by
    unfold pageBackward applyFetched
    rw [if_pos hcond]
    simp [List.dropLast_concat]
  rw [hback]
  have hcc : (h1.getLast?).getD "" = currentCursor s := by
    rw [hh1]
    unfold currentCursor
    by_cases hp1 : s.currentPage = 1
    · rw [if_pos hp1, List.getLast?_concat]
      rw [if_neg (by omega)]
      rfl
    · rw [if_neg hp1]
      by_cases hh : s.history = []
      · rw [hh]
        rw [if_neg (by simp)]
        rfl
      · rw [if_pos ⟨by omega, hh⟩]
  refine ⟨by simp, by simp [hcc], ?_⟩
  rw [← hcc, hh1]
  unfold currentCursor
  by_cases hp1 : s.currentPage = 1
  · rw [if_pos hp1]
    simp only [hp1]
    rw [if_neg (by omega)]
    rw [List.getLast?_concat]
    rfl
  · rw [if_neg hp1]
    by_cases hh : s.history = []
    · rw [hh]
      rw [if_neg (by simp)]
      rfl
    · rw [if_pos ⟨by simpa using Nat.lt_of_le_of_ne hpage (fun hx => hp1 hx.symm), hh⟩]

/-! ## Lemmas about the batch extraction loop -/

theorem processPost_fetched (env : RemoteEnv) (st : BatchState) (p : BPost) :
    (processPost env st p).fetchedPages = st.fetchedPages := by
  unfold processPost
  simp only []
  repeat' split
  all_goals rfl

theorem processPost_processed (env : RemoteEnv) (st : BatchState) (p : BPost) :
    (processPost env st p).processedPosts = st.processedPosts ++ [p.id] := by
  unfold processPost
  simp only []
  repeat' split
  all_goals rfl

theorem foldl_processPost_fetched (env : RemoteEnv) : ∀ (ps : List BPost) (st : BatchState),
    (ps.foldl (processPost env) st).fetchedPages = st.fetchedPages := by
  intro ps
  induction ps with
  | nil => intro st; rfl
  | cons p t ih =>
    intro st
    rw [List.foldl_cons, ih, processPost_fetched]

theorem foldl_processPost_processed (env : RemoteEnv) : ∀ (ps : List BPost) (st : BatchState),
    (ps.foldl (processPost env) st).processedPosts
      = st.processedPosts ++ ps.map (fun p => p.id) := by
  intro ps
  induction ps with
  | nil => intro st; simp
  | cons p t ih =>
    intro st
    rw [List.foldl_cons, ih, processPost_processed]
    simp

theorem processPosts_fetched (env : RemoteEnv) (fd : Option Int) :
    ∀ (ps : List BPost) (st : BatchState),
      (processPosts env fd ps st).1.fetchedPages = st.fetchedPages := by
  intro ps
  induction ps with
  | nil => intro st; rfl
  | cons p t ih =>
    intro st
    unfold processPosts
    split
    · rfl
    · rw [ih, processPost_fetched]

theorem processPosts_stop (env : RemoteEnv) (fd : Option Int) :
    ∀ (pre : List BPost) (bad : BPost) (rest : List BPost) (st : BatchState),
      (∀ p ∈ pre, beforeFilter fd p = false) → beforeFilter fd bad = true →
      processPosts env fd (pre ++ bad :: rest) st = (pre.foldl (processPost env) st, true) := by
  intro pre
  induction pre with
  | nil =>
    intro bad rest st hpre hbad
    simp only [List.nil_append, List.foldl_nil]
    unfold processPosts
    rw [if_pos hbad]
  | cons q qs ih =>
    intro bad rest st hpre hbad
    have hq : beforeFilter fd q = false := hpre q (List.mem_cons_self q qs)
    simp only [List.cons_append, List.foldl_cons]
    unfold processPosts
    rw [if_neg (by simp [hq])]
    exact ih bad rest (processPost env st q) (fun p hp => hpre p (List.mem_cons_of_mem q hp)) hbad

theorem extract_succ (env : RemoteEnv) (fd : Option Int) (fuel : Nat) (cursor : String)
    (st : BatchState) :
    extractLinksFromCampaign env fd (fuel + 1) cursor st =
      (match env.pages cursor with
       | Except.error _ =>
         ({ st with fetchedPages := st.fetchedPages ++ [cursor] }, true)
       | Except.ok page =>
         match processPosts env fd page.posts
             { st with fetchedPages := st.fetchedPages ++ [cursor] } with
         | (st2, true) => (st2, true)
         | (st2, false) =>
           if page.hasMore = true ∧ page.nextCursor ≠ "" then
             extractLinksFromCampaign env fd fuel page.nextCursor st2
           else (st2, true)) := rfl

theorem extract_trace (env : RemoteEnv) (fd : Option Int) :
    ∀ (fuel : Nat) (cursor : String) (st : BatchState),
      ∃ tail, (extractLinksFromCampaign env fd fuel cursor st).1.fetchedPages
          = st.fetchedPages ++ tail ∧
        ((fuel = 0 ∧ tail = []) ∨ ∃ t2, tail = cursor :: t2 ∧ ∀ c ∈ t2, c ≠ "") := by
  intro fuel
  induction fuel with
  | zero =>
    intro cursor st
    exact ⟨[], by simp [extractLinksFromCampaign], Or.inl ⟨rfl, rfl⟩⟩
  | succ fuel ih =>
    intro cursor st
    rw [extract_succ]
    cases henv : env.pages cursor with
    | error e =>
      exact ⟨[cursor], rfl, Or.inr ⟨[], rfl, by simp⟩⟩
    | ok page =>
      simp only []
      cases hpp : processPosts env fd page.posts
          { st with fetchedPages := st.fetchedPages ++ [cursor] } with
      | mk st2 stopped =>
        have hfp : st2.fetchedPages = st.fetchedPages ++ [cursor] := by
          have := processPosts_fetched env fd page.posts
            { st with fetchedPages := st.fetchedPages ++ [cursor] }
          rw [hpp] at this
          exact this
        cases stopped with
        | true =>
          exact ⟨[cursor], by simp [hfp], Or.inr ⟨[], rfl, by simp⟩⟩
        | false =>
          simp only []
          by_cases hmore : page.hasMore = true ∧ page.nextCursor ≠ ""
          · rw [if_pos hmore]
            obtain ⟨tail2, htail2, hdisj⟩ := ih page.nextCursor st2
            refine ⟨cursor :: tail2, ?_, Or.inr ⟨tail2, rfl, ?_⟩⟩
            · rw [htail2, hfp]
              simp
            · intro c hc
              rcases hdisj with ⟨-, hnil⟩ | ⟨t2, ht2, hall⟩
              · subst hnil; simp at hc
              · subst ht2
                rcases List.mem_cons.mp hc with hceq | hct
                · subst hceq; exact hmore.2
                · exact hall c hct
          · rw [if_neg hmore]
            exact ⟨[cursor], by simp [hfp], Or.inr ⟨[], rfl, by simp⟩⟩

/-- C2: within the batch workflow's per-campaign scan, as soon as a post
older than the cutoff is met inside a page the whole campaign stops: the only
page fetch recorded is the current one (no further page is fetched) and only
the posts before the offending one are processed; and in scenario B — two
campaigns, cutoff 2024-01-01, campaign c1's first page dated
\x5b2024-06-01, 2023-12-01\x5d — campaign c1 fetches one page and processes
only the first post. -/
theorem extractLinksFromCampaign_earlyStop :
    (∀ (env : RemoteEnv) (d : Int) (fuel : Nat) (cursor : String) (st : BatchState)
        (page : BPage) (pre : List BPost) (bad : BPost) (rest : List BPost),
      env.pages cursor = Except.ok page →
      page.posts = pre ++ bad :: rest →
      (∀ p ∈ pre, beforeFilter (some d) p = false) →
      beforeFilter (some d) bad = true →
      (extractLinksFromCampaign env (some d) (fuel + 1) cursor st).1.fetchedPages
          = st.fetchedPages ++ [cursor] ∧
      (extractLinksFromCampaign env (some d) (fuel + 1) cursor st).1.processedPosts
          = st.processedPosts ++ pre.map (fun p => p.id) ∧
      (extractLinksFromCampaign env (some d) (fuel + 1) cursor st).2 = true) ∧
    (runCampaigns scenBEnv (some 20240101) 10 ["c1", "c2"] emptyDb).1.map
        (fun r => (r.campaignId, r.fetchedPages, r.processedPosts))
      = [("c1", [""], ["b1"]), ("c2", [""], [])] := by
  constructor
  · intro env d fuel cursor st page pre bad rest hok hposts hpre hbad
    have hrun : extractLinksFromCampaign env (some d) (fuel + 1) cursor st =
        (pre.foldl (processPost env)
          { st with fetchedPages := st.fetchedPages ++ [cursor] }, true) := by
      unfold extractLinksFromCampaign
      rw [hok]
      simp only []
      rw [hposts, processPosts_stop env (some d) pre bad rest _ hpre hbad]
    rw [hrun]
    refine ⟨?_, ?_, rfl⟩
    · rw [foldl_processPost_fetched]
    · rw [foldl_processPost_processed]
  · decide

/-- Witness for C2: the early-stop property discharged on campaign c1 of
scenario B. -/
theorem extractLinksFromCampaign_earlyStop_witness :
    (extractLinksFromCampaign (envFor scenBEnv "c1") (some 20240101) 10 ""
        { db := emptyDb, links := [], fetchedPages := [], processedPosts := [] }).1.fetchedPages
      = [] ++ [""] ∧
    (extractLinksFromCampaign (envFor scenBEnv "c1") (some 20240101) 10 ""
        { db := emptyDb, links := [], fetchedPages := [], processedPosts := [] }).1.processedPosts
      = [] ++ [(⟨"b1", 20240601⟩ : BPost)].map (fun p => p.id) ∧
    (extractLinksFromCampaign (envFor scenBEnv "c1") (some 20240101) 10 ""
        { db := emptyDb, links := [], fetchedPages := [], processedPosts := [] }).2 = true :=
  extractLinksFromCampaign_earlyStop.1 (envFor scenBEnv "c1") 20240101 9 ""
    { db := emptyDb, links := [], fetchedPages := [], processedPosts := [] }
    { posts := [⟨"b1", 20240601⟩, ⟨"b2", 20231201⟩], nextCursor := "CUR2", hasMore := true }
    [⟨"b1", 20240601⟩] ⟨"b2", 20231201⟩ []
    rfl rfl (by decide) (by decide)

/-- C10: the per-campaign pagination loop records the starting cursor as its
first fetch and issues every later fetch with a non-empty cursor; and any
fetched page whose `hasMore` flag is false or whose next cursor is empty —
including a page that reports more pages but yields no parsable cursor —
ends the campaign's scan with no further fetch (in particular the first page
is never refetched). -/
theorem extractLinksFromCampaign_loopExit :
    (∀ (env : RemoteEnv) (fd : Option Int) (fuel : Nat) (cursor : String) (st : BatchState),
      ∃ tail, (extractLinksFromCampaign env fd (fuel + 1) cursor st).1.fetchedPages
          = st.fetchedPages ++ cursor :: tail ∧ ∀ c ∈ tail, c ≠ "") ∧
    (∀ (env : RemoteEnv) (fd : Option Int) (fuel : Nat) (cursor : String) (st : BatchState)
        (page : BPage),
      env.pages cursor = Except.ok page →
      (page.hasMore = false ∨ page.nextCursor = "") →
      (extractLinksFromCampaign env fd (fuel + 1) cursor st).1.fetchedPages
        = st.fetchedPages ++ [cursor]) := by
  constructor
  · intro env fd fuel cursor st
    obtain ⟨tail, htail, hdisj⟩ := extract_trace env fd (fuel + 1) cursor st
    rcases hdisj with ⟨hz, -⟩ | ⟨t2, ht2, hall⟩
    · exact absurd hz (Nat.succ_ne_zero fuel)
    · subst ht2
      exact ⟨t2, htail, hall⟩
  · intro env fd fuel cursor st page hok hstop
    unfold extractLinksFromCampaign
    rw [hok]
    simp only []
    cases hpp : processPosts env fd page.posts
        { st with fetchedPages := st.fetchedPages ++ [cursor] } with
    | mk st2 stopped =>
      have hfp : st2.fetchedPages = st.fetchedPages ++ [cursor] := by
        have := processPosts_fetched env fd page.posts
          { st with fetchedPages := st.fetchedPages ++ [cursor] }
        rw [hpp] at this
        exact this
      cases stopped with
      | true => exact hfp
      | false =>
        simp only []
        rw [if_neg (by
          intro hand
          rcases hstop with h1 | h2
          · rw [hand.1] at h1; exact Bool.noConfusion h1
          · exact hand.2 h2)]
        exact hfp

/-- Witness for C10: a page that reports more pages but carries an empty
next cursor ends the scan after the single fetch of the first page. -/
theorem extractLinksFromCampaign_loopExit_witness :
    (extractLinksFromCampaign
        { pages := fun _ =>
            Except.ok { posts := [], nextCursor := "", hasMore := true }
          details := fun _ => Except.error "down" }
        none 5 ""
        { db := emptyDb, links := [], fetchedPages := [], processedPosts := [] }).1.fetchedPages
      = [] ++ [""] :=
  extractLinksFromCampaign_loopExit.2
    { pages := fun _ => Except.ok { posts := [], nextCursor := "", hasMore := true }
      details := fun _ => Except.error "down" }
    none 4 ""
    { db := emptyDb, links := [], fetchedPages := [], processedPosts := [] }
    { posts := [], nextCursor := "", hasMore := true }
    rfl (Or.inr rfl)

/-! ## C3: derivation of the hasMore flag -/

/-- Counterexample to C3 as stated: a response whose next link is a
well-formed URL without a `page\x5bcursor\x5d` parameter yields no usable
next page (the extracted cursor is empty), yet `FetchPosts` still reports
`hasMore = true` — the flag is derived from non-emptiness of the link alone,
so it is not true "exactly when the response would yield a usable next
page". -/
theorem fetchPosts_hasMore_counterexample :
    (postsPageOfLinks
        { next := "https://www.patreon.com/api/posts?page%5Bcount%5D=50" }).hasMore
      = true ∧
    (postsPageOfLinks
        { next := "https://www.patreon.com/api/posts?page%5Bcount%5D=50" }).nextCursor
      = "" := by
  decide

/-- C3 amended: `hasMore` is true exactly when the next link is non-empty; a
missing next link yields `hasMore = false` and an empty cursor; a malformed
next link (here: an unparseable URL, or any link from which no
`page\x5bcursor\x5d` value can be extracted) yields an empty next cursor
while `hasMore` stays true, and the pagination loops stop on the empty
cursor. -/
theorem fetchPosts_hasMore_amended (links : RespLinks) :
    ((postsPageOfLinks links).hasMore = true ↔ links.next ≠ "") ∧
    (links.next = "" →
      (postsPageOfLinks links).hasMore = false ∧
      (postsPageOfLinks links).nextCursor = "") ∧
    (postsPageOfLinks links).nextCursor = extractCursorFromURL links.next ∧
    (links.next.data.any isCtrlChar = true →
      (postsPageOfLinks links).nextCursor = "") := by
  refine ⟨?_, ?_, rfl, ?_⟩
  · simp [postsPageOfLinks]
  · intro h
    constructor
    · simp [postsPageOfLinks, h]
    · show extractCursorFromURL links.next = ""
      rw [h]
      rfl
  · intro h
    show extractCursorFromURL links.next = ""
    unfold extractCursorFromURL
    by_cases hq : links.next = ""
    · rw [if_pos hq]
    · rw [if_neg hq, if_pos h]

/-- Witness for C3 (amended): the empty and control-character next links
both yield an empty cursor, and the former turns the flag off. -/
theorem fetchPosts_hasMore_amended_witness :
    ((postsPageOfLinks { next := "" }).hasMore = false ∧
      (postsPageOfLinks { next := "" }).nextCursor = "") ∧
    (postsPageOfLinks { next := "http://x/\x01" }).nextCursor = "" :=
  ⟨(fetchPosts_hasMore_amended { next := "" }).2.1 rfl,
   (fetchPosts_hasMore_amended { next := "http://x/\x01" }).2.2.2 (by decide)⟩

/-! ## C9: details force refresh clears the cache before fetching -/

/-- C9: in the details view, a forced refresh clears the selected post's
cached detail in the store (description and links nulled, flag reset), marks
it uncached in the in-memory list, enters `Loading` and dispatches the
details fetch; when that fetch fails, the error message leaves the store and
the list untouched — the cleared detail is not restored — and the UI moves
to the `Error` state. -/
theorem detailsForceRefresh_spec (m : UiModel) (post : UiPost)
    (hget : m.posts[m.cursor]? = some post) :
    (detailsForceRefresh m).2 = some post.id ∧
    (detailsForceRefresh m).1.db post.id =
      (m.db post.id).map (fun r =>
        { r with description := none, youtubeLinks := none, detailsCached := false }) ∧
    (detailsForceRefresh m).1.posts[m.cursor]? =
      some { post with detailsCached := false } ∧
    (detailsForceRefresh m).1.state = UiState.loading ∧
    (applyDetailsFetchError (detailsForceRefresh m).1).db
      = (detailsForceRefresh m).1.db ∧
    (applyDetailsFetchError (detailsForceRefresh m).1).posts
      = (detailsForceRefresh m).1.posts ∧
    (applyDetailsFetchError (detailsForceRefresh m).1).state = UiState.error := by
  have hlt : m.cursor < m.posts.length := by
    obtain ⟨h, -⟩ := List.getElem?_eq_some_iff.mp hget
    exact h
  have hne : m.posts ≠ [] := by
    intro h
    rw [h] at hlt
    simp at hlt
  have hstep : detailsForceRefresh m =
      ({ m with
           db := ClearPostDetails post.id m.db
           posts := m.posts.set m.cursor { post with detailsCached := false }
           state := UiState.loading },
       some post.id) := by
    unfold detailsForceRefresh
    rw [hget]
    simp only []
    rw [if_pos hne]
  rw [hstep]
  refine ⟨rfl, ?_, ?_, rfl, rfl, rfl, rfl⟩
  · show ClearPostDetails post.id m.db post.id = _
    simp [ClearPostDetails]
  · show (m.posts.set m.cursor { post with detailsCached := false })[m.cursor]? = _
    rw [List.getElem?_set_self hlt]

/-- Witness for C9: a concrete forced refresh over a cached post. -/
theorem detailsForceRefresh_spec_witness :
    (detailsForceRefresh
        { state := UiState.details
          posts := [⟨"p1", true⟩]
          cursor := 0
          db := fun j => if j = "p1" then
            some ⟨"c1", "post", "text_post", "t", "/p", true, 20240101,
              some "d", some "[]", true⟩
            else none }).2 = some "p1" ∧
    (detailsForceRefresh
        { state := UiState.details
          posts := [⟨"p1", true⟩]
          cursor := 0
          db := fun j => if j = "p1" then
            some ⟨"c1", "post", "text_post", "t", "/p", true, 20240101,
              some "d", some "[]", true⟩
            else none }).1.db "p1" =
      ((fun j => if j = "p1" then
          some (⟨"c1", "post", "text_post", "t", "/p", true, 20240101,
            some "d", some "[]", true⟩ : PostRow)
          else none) "p1").map (fun r =>
        { r with description := none, youtubeLinks := none, detailsCached := false }) := by
  have h := detailsForceRefresh_spec
    { state := UiState.details
      posts := [⟨"p1", true⟩]
      cursor := 0
      db := fun j => if j = "p1" then
        some ⟨"c1", "post", "text_post", "t", "/p", true, 20240101,
          some "d", some "[]", true⟩
        else none }
    ⟨"p1", true⟩ (by decide)
  exact ⟨h.1, h.2.1⟩

/-- Witness for C6: a concrete forward navigation from page 2 followed by a
backward navigation restores cursor "c2" and page 2. -/
theorem pagination_forward_backward_witness :
    (pageBackward (applyFetched
        (pageForward ⟨2, "c3", true, ["", "c2"]⟩).1 "c4" true)).1.currentPage = 2 ∧
    (pageBackward (applyFetched
        (pageForward ⟨2, "c3", true, ["", "c2"]⟩).1 "c4" true)).2
      = some (currentCursor ⟨2, "c3", true, ["", "c2"]⟩) ∧
    currentCursor (pageBackward (applyFetched
        (pageForward ⟨2, "c3", true, ["", "c2"]⟩).1 "c4" true)).1
      = currentCursor ⟨2, "c3", true, ["", "c2"]⟩ :=
  pagination_forward_backward ⟨2, "c3", true, ["", "c2"]⟩ "c4" true
    ⟨by decide, by decide⟩ (by decide)

/-- Witness for C8: a concrete save-then-read round trip. -/
theorem savePostDetails_getPost_roundtrip_witness :
    ∃ cp,
      GetPost (SavePostDetails "p1" "a description"
          (encodeLinks ["https://www.youtube.com/watch?v=dQw4w9WgXcQ", "x\"y"])
          (fun j => if j = "p1" then
            some ⟨"c1", "post", "text_post", "t", "/p", true, 20240101, none, none, false⟩
            else none))
        "p1" = some cp ∧
      cp.description = "a description" ∧
      decodeLinks cp.youtubeLinks =
        some ["https://www.youtube.com/watch?v=dQw4w9WgXcQ", "x\"y"] ∧
      cp.detailsCached = true :=
  savePostDetails_getPost_roundtrip
    (fun j => if j = "p1" then
      some ⟨"c1", "post", "text_post", "t", "/p", true, 20240101, none, none, false⟩
      else none)
    "p1" "a description" ["https://www.youtube.com/watch?v=dQw4w9WgXcQ", "x\"y"]
    ⟨"c1", "post", "text_post", "t", "/p", true, 20240101, none, none, false⟩ (by decide)

end PatreonPosts
